import Mathlib

/-!
Shallow embedding of the `idat_unbuilder` repository
(`src/idat_unbuilder.py`, `src/lib/unfilter_decompressed_idat.py`,
`src/crc32.py`) and proofs about the claims of its specification.

Bytes are modelled as `Nat` (values below 256 where the Python `bytes`
type guarantees it), byte buffers as `List Nat`.  Python exceptions
(`IndexError` from out-of-range indexing, the explicit `ValueError` for an
unknown filter type) are modelled with `Except`.
-/

/-- Errors that can escape `unfilter_scanlines`: a Python `IndexError`
from an out-of-range byte access, or the explicit `ValueError` raised for
a filter byte outside 0..4. -/
inductive FilterError where
  | indexError : FilterError
  | unknownFilterType : Nat → FilterError
deriving DecidableEq, Repr

/-- Python truthiness normalisation for the `prev_scanline` argument:
`None` and the empty byte string are both falsy, so both behave as "no
previous scanline"; we normalise to a plain list where `[]` stands for a
falsy previous scanline. -/
def prevList : Option (List Nat) → List Nat
  | none => []
  | some q => q

/-- The Python slice `reconstructed_image[-stride:]` (used at
`unfilter_decompressed_idat.py:35,38,41`): for `stride = 0` Python reads
`[-0:]` as `[0:]`, the whole buffer; otherwise the last `stride` bytes. -/
def lastSlice (recon : List Nat) (stride : Nat) : List Nat :=
  if stride = 0 then recon else recon.drop (recon.length - stride)

/-- Loop of `unfilter_sub` (`unfilter_decompressed_idat.py:53-60`): the
current index is `res.length`; one byte is appended per step.  All index
accesses of the Python loop are in range, so plain `getD` is exact. -/
def subGo (scanline : List Nat) (bytes_per_pixel : Nat) (res : List Nat) : Nat → List Nat
  | 0 => res
  | n + 1 =>
    let i := res.length
    let v := if i < bytes_per_pixel then scanline.getD i 0
             else (scanline.getD i 0 + res.getD (i - bytes_per_pixel) 0) % 256
    subGo scanline bytes_per_pixel (res ++ [v]) n

/-- `unfilter_sub` (`unfilter_decompressed_idat.py:53-60`). -/
def unfilter_sub (scanline : List Nat) (bytes_per_pixel : Nat) : List Nat :=
  subGo scanline bytes_per_pixel [] scanline.length

/-- `unfilter_up` (`unfilter_decompressed_idat.py:62-65`).  A falsy
`prev_scanline` returns the scanline unchanged; a truthy one shorter than
the scanline makes Python raise `IndexError` at `prev_scanline[i]`. -/
def unfilter_up (scanline : List Nat) (prev_scanline : Option (List Nat)) :
    Except FilterError (List Nat) :=
  let p := prevList prev_scanline
  if p = [] then .ok scanline
  else if p.length < scanline.length then .error .indexError
  else .ok ((List.range scanline.length).map fun i => (scanline.getD i 0 + p.getD i 0) % 256)

/-- Loop of `unfilter_average` (`unfilter_decompressed_idat.py:67-73`);
`p = []` encodes a falsy `prev_scanline`, for which `up` is `0`, which is
also what `getD` on `[]` yields. -/
def avgGo (scanline p : List Nat) (bytes_per_pixel : Nat) (res : List Nat) : Nat → List Nat
  | 0 => res
  | n + 1 =>
    let i := res.length
    let left := if bytes_per_pixel ≤ i then res.getD (i - bytes_per_pixel) 0 else 0
    let up := p.getD i 0
    avgGo scanline p bytes_per_pixel
      (res ++ [(scanline.getD i 0 + (left + up) / 2) % 256]) n

/-- `unfilter_average` (`unfilter_decompressed_idat.py:67-73`).  With a
truthy `prev_scanline` shorter than the scanline, Python raises
`IndexError` at `prev_scanline[i]`. -/
def unfilter_average (scanline : List Nat) (prev_scanline : Option (List Nat))
    (bytes_per_pixel : Nat) : Except FilterError (List Nat) :=
  let p := prevList prev_scanline
  if p ≠ [] ∧ p.length < scanline.length then .error .indexError
  else .ok (avgGo scanline p bytes_per_pixel [] scanline.length)

/-- `paeth_predictor` (`unfilter_decompressed_idat.py:76-87`); `p` is
computed in `Int` because `a + b - c` can be negative in Python. -/
def paeth_predictor (a b c : Nat) : Nat :=
  let p : Int := (a : Int) + (b : Int) - (c : Int)
  let pa := (p - (a : Int)).natAbs
  let pb := (p - (b : Int)).natAbs
  let pc := (p - (c : Int)).natAbs
  if pa ≤ pb ∧ pa ≤ pc then a
  else if pb ≤ pc then b
  else c

/-- Loop of `unfilter_paeth` (`unfilter_decompressed_idat.py:89-95`). -/
def paethGo (scanline p : List Nat) (bytes_per_pixel : Nat) (res : List Nat) : Nat → List Nat
  | 0 => res
  | n + 1 =>
    let i := res.length
    let left := if bytes_per_pixel ≤ i then res.getD (i - bytes_per_pixel) 0 else 0
    let up := p.getD i 0
    let ul := if bytes_per_pixel ≤ i then p.getD (i - bytes_per_pixel) 0 else 0
    paethGo scanline p bytes_per_pixel
      (res ++ [(scanline.getD i 0 + paeth_predictor left up ul) % 256]) n

/-- `unfilter_paeth` (`unfilter_decompressed_idat.py:75-95`).  With a
truthy `prev_scanline` shorter than the scanline, Python raises
`IndexError` at `prev_scanline[i]`. -/
def unfilter_paeth (scanline : List Nat) (prev_scanline : Option (List Nat))
    (bytes_per_pixel : Nat) : Except FilterError (List Nat) :=
  let p := prevList prev_scanline
  if p ≠ [] ∧ p.length < scanline.length then .error .indexError
  else .ok (paethGo scanline p bytes_per_pixel [] scanline.length)

/-- Scanline loop of `unfilter_scanlines`
(`unfilter_decompressed_idat.py:16-47`), recursing on the number of rows
still to process.  `decompressed_data[index]` raises `IndexError` when out
of range; the scanline slice `decompressed_data[index:index+stride]` is
silently short when the buffer is truncated. -/
def unfilterGo (data : List Nat) (stride bytes_per_pixel index : Nat) (recon : List Nat) :
    Nat → Except FilterError (List Nat)
  | 0 => .ok recon
  | h + 1 =>
    match data.get? index with
    | none => .error .indexError
    | some filter_type =>
      let scanline_data := (data.drop (index + 1)).take stride
      let prev : Option (List Nat) := if recon = [] then none else some (lastSlice recon stride)
      let step : Except FilterError (List Nat) :=
        if filter_type = 0 then .ok scanline_data
        else if filter_type = 1 then .ok (unfilter_sub scanline_data bytes_per_pixel)
        else if filter_type = 2 then unfilter_up scanline_data prev
        else if filter_type = 3 then unfilter_average scanline_data prev bytes_per_pixel
        else if filter_type = 4 then unfilter_paeth scanline_data prev bytes_per_pixel
        else .error (.unknownFilterType filter_type)
      match step with
      | .error e => .error e
      | .ok rsl => unfilterGo data stride bytes_per_pixel (index + 1 + stride) (recon ++ rsl) h

/-- `unfilter_scanlines` (`unfilter_decompressed_idat.py:1-49`). -/
def unfilter_scanlines (data : List Nat) (width bytes_per_pixel height : Nat) :
    Except FilterError (List Nat) :=
  unfilterGo data (width * bytes_per_pixel) bytes_per_pixel 0 [] height

/-! ## CRC engine (`src/crc32.py`) -/

/-- Iterate a function `n` times (the Python `for _ in range(8)` loops). -/
def iterN (f : Nat → Nat) : Nat → Nat → Nat
  | 0, x => x
  | n + 1, x => iterN f n (f x)

/-- One round of the forward-mode loop (`crc32.py:11-14`): test the top
bit of the (unmasked) register, shift left, conditionally xor the
polynomial.  No mask inside the 8-round loop, exactly as in the source. -/
def stdRound (polynomial crc : Nat) : Nat :=
  if crc &&& 0x80000000 ≠ 0 then (crc <<< 1) ^^^ polynomial else crc <<< 1

/-- `calculate_crc32_standard` (`crc32.py:5-16`): per byte, xor the byte
into bits 24-31, run 8 rounds, then mask the register to 32 bits. -/
def calculate_crc32_standard (data : List Nat)
    (polynomial : Nat := 0x04C11DB7) (initial_value : Nat := 0xFFFFFFFF) : Nat :=
  (data.foldl (fun crc byte =>
    (iterN (stdRound polynomial) 8 (crc ^^^ (byte <<< 24))) &&& 0xFFFFFFFF)
    initial_value) ^^^ initial_value

/-- One round of the reflected-mode loop (`crc32.py:23-27`): test the low
bit, shift right, conditionally xor the polynomial. -/
def revRound (polynomial crc : Nat) : Nat :=
  if crc &&& 1 ≠ 0 then (crc >>> 1) ^^^ polynomial else crc >>> 1

/-- `calculate_crc32_reversed` (`crc32.py:18-28`): per byte, xor the byte
into the low bits and run 8 rounds; no masking anywhere. -/
def calculate_crc32_reversed (data : List Nat)
    (polynomial : Nat := 0xEDB88320) (initial_value : Nat := 0xFFFFFFFF) : Nat :=
  (data.foldl (fun crc byte => iterN (revRound polynomial) 8 (crc ^^^ byte))
    initial_value) ^^^ initial_value

/-! ## Chunk scanner (`find_idat_chunks`, `src/idat_unbuilder.py:9-64`) -/

/-- The fixed 8-byte PNG signature (`idat_unbuilder.py:18`). -/
def pngSignature : List Nat := [137, 80, 78, 71, 13, 10, 26, 10]

/-- The ASCII bytes of the `IDAT` tag. -/
def idatTag : List Nat := [73, 68, 65, 84]

/-- Python `file_data.find(b'IDAT', idx)` (`idat_unbuilder.py:28`): the
smallest position `j ≥ idx` where the four tag bytes occur, `none` when
there is no occurrence (Python returns `-1`). -/
def findMarker (data : List Nat) (idx : Nat) : Option Nat :=
  (List.range' idx (data.length - idx)).find? fun j => (data.drop j).take 4 == idatTag

/-- `struct.unpack('>I', data[pos:pos+4])` on a slice known to hold
exactly four bytes: the big-endian 32-bit value. -/
def be32At (data : List Nat) (pos : Nat) : Nat :=
  match (data.drop pos).take 4 with
  | [a, b, c, d] => ((a * 256 + b) * 256 + c) * 256 + d
  | _ => 0

/-- The record appended per found chunk (`idat_unbuilder.py:51-59`):
chunk data (with the tag bytes when `include_magic`) and the four
trailing checksum bytes. -/
def chunkAt (data : List Nat) (include_magic : Bool) (j length : Nat) :
    List Nat × List Nat :=
  ((if include_magic then (data.drop j).take (4 + length)
    else (data.drop (j + 4)).take length),
   (data.drop (j + 4 + length)).take 4)

/-- Scan loop of `find_idat_chunks` (`idat_unbuilder.py:26-64`), with the
accumulated `(chunk, crc32)` records threaded through exactly as the
Python list `idat_chunks` is.  Both mid-scan error breaks (length field
before position 4 missing; chunk payload plus checksum running past the
end of the buffer) return the records accumulated so far. -/
def findIdatAux (data : List Nat) (include_magic : Bool) (idx : Nat)
    (acc : List (List Nat × List Nat)) : List (List Nat × List Nat) :=
  match hfind : findMarker data idx with
  | none => acc
  | some j =>
    if j < 4 then acc
    else
      let length := be32At data (j - 4)
      if data.length < j + 4 + length + 4 then acc
      else findIdatAux data include_magic (j + 4 + length + 4)
        (acc ++ [chunkAt data include_magic j length])
termination_by data.length - idx
decreasing_by
  have hmem := List.mem_of_find?_eq_some hfind
  have hpred := List.find?_some hfind
  have hj : idx ≤ j := by
    have := List.mem_range'.1 hmem
    omega
  have htag : (data.drop j).take 4 = idatTag := eq_of_beq hpred
  have hlen4 : ((data.drop j).take 4).length = 4 := by rw [htag]; rfl
  have hge4 : 4 ≤ (data.drop j).length := by
    rw [List.length_take] at hlen4
    omega
  rw [List.length_drop] at hge4
  omega

/-- `find_idat_chunks` (`idat_unbuilder.py:9-64`). -/
def find_idat_chunks (data : List Nat) (include_magic : Bool := false) :
    List (List Nat × List Nat) :=
  if data.take 8 ≠ pngSignature then [] else findIdatAux data include_magic 8 []

/-! ## Header extractor (`get_png_ihdr_info`, `src/idat_unbuilder.py:120-182`) -/

/-- Python `file.read(n)` at position `pos`: up to `n` bytes. -/
def readBytes (data : List Nat) (pos n : Nat) : List Nat :=
  (data.drop pos).take n

/-- Big-endian value of a list of bytes. -/
def beVal (l : List Nat) : Nat :=
  l.foldl (fun acc b => acc * 256 + b) 0

/-- The per-color-type derivation of bytes per pixel
(`idat_unbuilder.py:156-169`); `none` models the `UnsupportedColorType`
early return. -/
def bytesPerPixel (bit_depth color_type : Nat) : Option Nat :=
  if color_type = 0 then some (bit_depth / 8)
  else if color_type = 2 then some (bit_depth / 8 * 3)
  else if color_type = 3 then some 1
  else if color_type = 4 then some (bit_depth / 8 * 2)
  else if color_type = 6 then some (bit_depth / 8 * 4)
  else none

/-- Chunk loop of `get_png_ihdr_info` (`idat_unbuilder.py:136-175`):
read a 4-byte length and 4-byte type; stop (returning the Python
`None, None, None`) when either read is short (the type read starts at
`pos + 4`: when the length read is short the short-read guard fires and
the type bytes are never used, so the fixed offset is behaviour-equal to
Python's file position); on `IHDR` read 13 bytes
and parse width, height, bit depth and color type from the first 10
(a short read makes `struct.unpack` raise, also yielding the `None`
result); otherwise seek `length + 4` bytes forward and continue. -/
def ihdrLoop (data : List Nat) (pos : Nat) : Option (Nat × Nat × Nat) :=
  if h4 : (readBytes data pos 4).length < 4 ∨ (readBytes data (pos + 4) 4).length < 4 then
    none
  else
    let lenB := readBytes data pos 4
    let typB := readBytes data (pos + 4) 4
    let chunk_length := beVal lenB
    if typB = [73, 72, 68, 82] then
      let ihdr := readBytes data (pos + 8) 13
      if ihdr.length < 10 then none
      else
        let width := beVal (ihdr.take 4)
        let height := beVal ((ihdr.drop 4).take 4)
        let bit_depth := ihdr.getD 8 0
        let color_type := ihdr.getD 9 0
        (bytesPerPixel bit_depth color_type).map fun bpp => (width, height, bpp)
    else ihdrLoop data (pos + 8 + (chunk_length + 4))
termination_by data.length - pos
decreasing_by
  simp only [readBytes, List.length_take, List.length_drop, not_or, not_lt] at h4
  omega

/-- `get_png_ihdr_info` (`idat_unbuilder.py:120-182`), on the file's
bytes; `none` models every `None, None, None` return. -/
def get_png_ihdr_info (data : List Nat) : Option (Nat × Nat × Nat) :=
  if readBytes data 0 8 ≠ pngSignature then none else ihdrLoop data 8

/-! ## Forward PNG filters, modelled from the spec

The repository only implements the inverse direction (a stated non-goal:
"encoding/filtering (the forward direction)" is out of scope), so the
forward filters used by the round-trip claim are modelled from the spec's
formulas in section 4.5, read in the forward direction. -/

/-- Modelled from the spec: byte subtraction modulo 256 (all arithmetic
is "modulo-256 unsigned byte arithmetic"); `b` is a predictor value below
256, so `a - b` is computed as `a + (256 - b)` in `Nat`. -/
def byteSub (a b : Nat) : Nat := (a + (256 - b)) % 256

/-- Modelled from the spec: the `left` reference of Sub/Average/Paeth,
`output[i - bpp]` when `i ≥ bpp` and `0` otherwise, read off the original
(= reconstructed) scanline. -/
def leftRef (orig : List Nat) (bytes_per_pixel i : Nat) : Nat :=
  if bytes_per_pixel ≤ i then orig.getD (i - bytes_per_pixel) 0 else 0

/-- Modelled from the spec: filter type 0 (None) leaves the bytes
unchanged. -/
def filterNone (orig : List Nat) : List Nat := orig

/-- Modelled from the spec: forward Sub filter,
`filt[i] = (orig[i] - left) mod 256`. -/
def filterSub (orig : List Nat) (bytes_per_pixel : Nat) : List Nat :=
  (List.range orig.length).map fun i =>
    byteSub (orig.getD i 0) (leftRef orig bytes_per_pixel i)

/-- Modelled from the spec: forward Up filter,
`filt[i] = (orig[i] - prev[i]) mod 256` (`prev` treated as 0 if absent:
`[]` stands for the conceptual all-zero previous row). -/
def filterUp (orig prev : List Nat) : List Nat :=
  (List.range orig.length).map fun i =>
    byteSub (orig.getD i 0) (prev.getD i 0)

/-- Modelled from the spec: forward Average filter,
`filt[i] = (orig[i] - floor((left + up)/2)) mod 256`. -/
def filterAverage (orig prev : List Nat) (bytes_per_pixel : Nat) : List Nat :=
  (List.range orig.length).map fun i =>
    byteSub (orig.getD i 0) ((leftRef orig bytes_per_pixel i + prev.getD i 0) / 2)

/-- Modelled from the spec: forward Paeth filter,
`filt[i] = (orig[i] - paeth(left, up, upper_left)) mod 256`. -/
def filterPaeth (orig prev : List Nat) (bytes_per_pixel : Nat) : List Nat :=
  (List.range orig.length).map fun i =>
    byteSub (orig.getD i 0)
      (paeth_predictor (leftRef orig bytes_per_pixel i) (prev.getD i 0)
        (if bytes_per_pixel ≤ i then prev.getD (i - bytes_per_pixel) 0 else 0))

/-! ## Reference CRC computations, modelled from the spec

The spec requires that "both modes must mask to 32 bits after every
shift/xor"; the reference computations below do exactly that, so claim C8
compares the source functions against them. -/

/-- Modelled from the spec: one reflected-mode round with the register
masked to 32 bits after every shift and xor. -/
def revRoundMasked (polynomial crc : Nat) : Nat :=
  if crc &&& 1 ≠ 0 then (((crc >>> 1) &&& 0xFFFFFFFF) ^^^ polynomial) &&& 0xFFFFFFFF
  else (crc >>> 1) &&& 0xFFFFFFFF

/-- Modelled from the spec: reflected-mode CRC32 with the register masked
to 32 bits after every operation. -/
def crc32RevMasked (data : List Nat) (polynomial initial_value : Nat) : Nat :=
  ((data.foldl
      (fun crc byte => iterN (revRoundMasked polynomial) 8 ((crc ^^^ byte) &&& 0xFFFFFFFF))
      (initial_value &&& 0xFFFFFFFF)) ^^^ initial_value) &&& 0xFFFFFFFF

/-- Modelled from the spec: one forward-mode round with the register
masked to 32 bits after every shift and xor. -/
def stdRoundMasked (polynomial crc : Nat) : Nat :=
  if crc &&& 0x80000000 ≠ 0 then (((crc <<< 1) &&& 0xFFFFFFFF) ^^^ polynomial) &&& 0xFFFFFFFF
  else (crc <<< 1) &&& 0xFFFFFFFF

/-- Modelled from the spec: forward-mode CRC32 with the register masked
to 32 bits after every operation. -/
def crc32StdMasked (data : List Nat) (polynomial initial_value : Nat) : Nat :=
  ((data.foldl
      (fun crc byte =>
        iterN (stdRoundMasked polynomial) 8 ((crc ^^^ (byte <<< 24)) &&& 0xFFFFFFFF))
      (initial_value &&& 0xFFFFFFFF)) ^^^ initial_value) &&& 0xFFFFFFFF

/-! ## Theorems -/

/-- If `findMarker` finds the tag at `j`, then `idx ≤ j` and the four tag
bytes fit in the buffer, so `j + 4 ≤ data.length`. -/
theorem findMarker_bounds {data : List Nat} {idx j : Nat}
    (h : findMarker data idx = some j) :
    idx ≤ j ∧ j + 4 ≤ data.length := by
  have hmem := List.mem_of_find?_eq_some h
  have hpred := List.find?_some h
  have hj : idx ≤ j := by
    have := List.mem_range'.1 hmem
    omega
  have htag : (data.drop j).take 4 = idatTag := by
    exact eq_of_beq hpred
  have hlen : ((data.drop j).take 4).length = 4 := by
    rw [htag]; rfl
  have : (data.drop j).length ≥ 4 := by
    rw [List.length_take] at hlen
    omega
  rw [List.length_drop] at this
  exact ⟨hj, by omega⟩


/-! ### Helper lemmas about byte lists -/

theorem byteSub_roundtrip {a p : Nat} (ha : a < 256) (hp : p < 256) :
    (byteSub a p + p) % 256 = a := by
  unfold byteSub
  omega

theorem byteSub_zero {a : Nat} (ha : a < 256) : byteSub a 0 = a := by
  unfold byteSub
  omega

theorem getD_lt_of_all {l : List Nat} (h : ∀ x ∈ l, x < 256) (i : Nat) :
    l.getD i 0 < 256 := by
  rcases Nat.lt_or_ge i l.length with hi | hi
  · rw [List.getD_eq_getElem _ _ hi]
    exact h _ (List.getElem_mem hi)
  · rw [List.getD_eq_default _ _ hi]
    omega

theorem leftRef_lt {orig : List Nat} (h : ∀ x ∈ orig, x < 256)
    (bytes_per_pixel i : Nat) : leftRef orig bytes_per_pixel i < 256 := by
  unfold leftRef
  split
  · exact getD_lt_of_all h _
  · omega

theorem paeth_cases (a b c : Nat) :
    paeth_predictor a b c = a ∨ paeth_predictor a b c = b ∨ paeth_predictor a b c = c := by
  simp only [paeth_predictor]
  split_ifs <;> simp

theorem getD_take_lt (l : List Nat) {i n : Nat} (h : i < n) :
    (l.take n).getD i 0 = l.getD i 0 := by
  rcases Nat.lt_or_ge i l.length with hi | hi
  · have h1 : i < (l.take n).length := by
      rw [List.length_take]; omega
    rw [List.getD_eq_getElem _ _ h1, List.getD_eq_getElem _ _ hi, List.getElem_take]
  · have h2 : (l.take n).length ≤ i := by
      rw [List.length_take]; omega
    rw [List.getD_eq_default _ _ h2, List.getD_eq_default _ _ hi]

theorem take_succ_getD (l : List Nat) {i : Nat} (h : i < l.length) :
    l.take (i + 1) = l.take i ++ [l.getD i 0] := by
  rw [List.take_succ, List.getD_eq_getElem _ _ h, List.getElem?_eq_getElem h]
  rfl

theorem mapRange_getD (f : Nat → Nat) {n i : Nat} (h : i < n) :
    ((List.range n).map f).getD i 0 = f i := by
  have h1 : i < ((List.range n).map f).length := by simp [h]
  rw [List.getD_eq_getElem _ _ h1]
  simp

theorem mapRange_eq_self (l : List Nat) (f : Nat → Nat)
    (h : ∀ i, i < l.length → f i = l.getD i 0) :
    (List.range l.length).map f = l := by
  apply List.ext_getElem
  · simp
  · intro i h1 h2
    simp only [List.getElem_map, List.getElem_range]
    rw [h i h2, List.getD_eq_getElem _ _ h2]

/-! ### Round-trip lemmas for the three stateful unfilter loops -/

theorem subGo_round (orig : List Nat) (bpp : Nat) (hb : 1 ≤ bpp)
    (ho : ∀ x ∈ orig, x < 256) :
    ∀ n i, i + n = orig.length →
      subGo (filterSub orig bpp) bpp (orig.take i) n = orig := by
  intro n
  induction n with
  | zero =>
    intro i hi
    have h0 : i = orig.length := by omega
    subst h0
    simp [subGo, List.take_length]
  | succ n ih =>
    intro i hi
    have hi' : i < orig.length := by omega
    have hlen : (orig.take i).length = i := by
      rw [List.length_take]; omega
    have hv : (if i < bpp then (filterSub orig bpp).getD i 0
        else ((filterSub orig bpp).getD i 0 + (orig.take i).getD (i - bpp) 0) % 256)
        = orig.getD i 0 := by
      have hscan : (filterSub orig bpp).getD i 0
          = byteSub (orig.getD i 0) (leftRef orig bpp i) := by
        simp only [filterSub]
        exact mapRange_getD _ hi'
      by_cases hcase : i < bpp
      · rw [if_pos hcase, hscan]
        have : leftRef orig bpp i = 0 := by
          unfold leftRef
          rw [if_neg (by omega)]
        rw [this]
        exact byteSub_zero (getD_lt_of_all ho i)
      · rw [if_neg hcase, hscan]
        have hl : leftRef orig bpp i = orig.getD (i - bpp) 0 := by
          unfold leftRef
          rw [if_pos (by omega)]
        have htk : (orig.take i).getD (i - bpp) 0 = orig.getD (i - bpp) 0 :=
          getD_take_lt orig (by omega)
        rw [hl, htk]
        exact byteSub_roundtrip (getD_lt_of_all ho i) (getD_lt_of_all ho (i - bpp))
    simp only [subGo, hlen, hv]
    rw [← take_succ_getD orig hi']
    exact ih (i + 1) (by omega)

theorem avgGo_round (orig p : List Nat) (bpp : Nat) (hb : 1 ≤ bpp)
    (ho : ∀ x ∈ orig, x < 256) (hp : ∀ x ∈ p, x < 256) :
    ∀ n i, i + n = orig.length →
      avgGo (filterAverage orig p bpp) p bpp (orig.take i) n = orig := by
  intro n
  induction n with
  | zero =>
    intro i hi
    have h0 : i = orig.length := by omega
    subst h0
    simp [avgGo, List.take_length]
  | succ n ih =>
    intro i hi
    have hi' : i < orig.length := by omega
    have hlen : (orig.take i).length = i := by
      rw [List.length_take]; omega
    have hleft : (if bpp ≤ i then (orig.take i).getD (i - bpp) 0 else 0)
        = leftRef orig bpp i := by
      unfold leftRef
      by_cases hcase : bpp ≤ i
      · rw [if_pos hcase, if_pos hcase]
        exact getD_take_lt orig (by omega)
      · rw [if_neg hcase, if_neg hcase]
    have hscan : (filterAverage orig p bpp).getD i 0
        = byteSub (orig.getD i 0) ((leftRef orig bpp i + p.getD i 0) / 2) := by
      simp only [filterAverage]
      exact mapRange_getD _ hi'
    have hv : ((filterAverage orig p bpp).getD i 0
        + ((if bpp ≤ i then (orig.take i).getD (i - bpp) 0 else 0) + p.getD i 0) / 2) % 256
        = orig.getD i 0 := by
      rw [hleft, hscan]
      have h1 := leftRef_lt ho bpp i
      have h2 := getD_lt_of_all hp i
      exact byteSub_roundtrip (getD_lt_of_all ho i) (by omega)
    simp only [avgGo, hlen, hv]
    rw [← take_succ_getD orig hi']
    exact ih (i + 1) (by omega)

theorem paethGo_round (orig p : List Nat) (bpp : Nat) (hb : 1 ≤ bpp)
    (ho : ∀ x ∈ orig, x < 256) (hp : ∀ x ∈ p, x < 256) :
    ∀ n i, i + n = orig.length →
      paethGo (filterPaeth orig p bpp) p bpp (orig.take i) n = orig := by
  intro n
  induction n with
  | zero =>
    intro i hi
    have h0 : i = orig.length := by omega
    subst h0
    simp [paethGo, List.take_length]
  | succ n ih =>
    intro i hi
    have hi' : i < orig.length := by omega
    have hlen : (orig.take i).length = i := by
      rw [List.length_take]; omega
    have hleft : (if bpp ≤ i then (orig.take i).getD (i - bpp) 0 else 0)
        = leftRef orig bpp i := by
      unfold leftRef
      by_cases hcase : bpp ≤ i
      · rw [if_pos hcase, if_pos hcase]
        exact getD_take_lt orig (by omega)
      · rw [if_neg hcase, if_neg hcase]
    have hscan : (filterPaeth orig p bpp).getD i 0
        = byteSub (orig.getD i 0)
            (paeth_predictor (leftRef orig bpp i) (p.getD i 0)
              (if bpp ≤ i then p.getD (i - bpp) 0 else 0)) := by
      simp only [filterPaeth]
      exact mapRange_getD _ hi'
    have hpred : paeth_predictor (leftRef orig bpp i) (p.getD i 0)
        (if bpp ≤ i then p.getD (i - bpp) 0 else 0) < 256 := by
      have h1 := leftRef_lt ho bpp i
      have h2 := getD_lt_of_all hp i
      have h3 : (if bpp ≤ i then p.getD (i - bpp) 0 else 0) < 256 := by
        split
        · exact getD_lt_of_all hp _
        · omega
      rcases paeth_cases (leftRef orig bpp i) (p.getD i 0)
        (if bpp ≤ i then p.getD (i - bpp) 0 else 0) with h | h | h <;> omega
    have hv : ((filterPaeth orig p bpp).getD i 0
        + paeth_predictor (if bpp ≤ i then (orig.take i).getD (i - bpp) 0 else 0)
            (p.getD i 0) (if bpp ≤ i then p.getD (i - bpp) 0 else 0)) % 256
        = orig.getD i 0 := by
      rw [hleft, hscan]
      exact byteSub_roundtrip (getD_lt_of_all ho i) hpred
    simp only [paethGo, hlen, hv]
    rw [← take_succ_getD orig hi']
    exact ih (i + 1) (by omega)

theorem filterUp_nil {orig : List Nat} (ho : ∀ x ∈ orig, x < 256) :
    filterUp orig [] = orig := by
  unfold filterUp
  apply mapRange_eq_self
  intro i hi
  rw [List.getD_nil]
  exact byteSub_zero (getD_lt_of_all ho i)

/-- Claim C1: for every scanline of original bytes, every stride, and
every bytes-per-pixel value at least 1, applying the forward PNG filter
of each type 0-4 (with the given previous reconstructed scanline, or all
zeros for the first row) and then the corresponding unfilter helper
(identity for type 0, `unfilter_sub`, `unfilter_up`, `unfilter_average`,
`unfilter_paeth`) reproduces the original scanline bytes exactly. -/
theorem C1_filter_unfilter_roundtrip (orig : List Nat) (bytes_per_pixel : Nat)
    (prev : Option (List Nat)) (hbpp : 1 ≤ bytes_per_pixel)
    (horig : ∀ x ∈ orig, x < 256)
    (hprev : ∀ q, prev = some q → q.length = orig.length ∧ ∀ x ∈ q, x < 256) :
    filterNone orig = orig ∧
    unfilter_sub (filterSub orig bytes_per_pixel) bytes_per_pixel = orig ∧
    unfilter_up (filterUp orig (prevList prev)) prev = Except.ok orig ∧
    unfilter_average (filterAverage orig (prevList prev) bytes_per_pixel) prev
      bytes_per_pixel = Except.ok orig ∧
    unfilter_paeth (filterPaeth orig (prevList prev) bytes_per_pixel) prev
      bytes_per_pixel = Except.ok orig := by
  have hplem : prevList prev = [] ∨
      ((prevList prev).length = orig.length ∧ ∀ x ∈ prevList prev, x < 256) := by
    cases prev with
    | none => exact Or.inl rfl
    | some q => exact Or.inr (by simpa [prevList] using hprev q rfl)
  have hpbytes : ∀ x ∈ prevList prev, x < 256 := by
    rcases hplem with h | h
    · rw [h]; simp
    · exact h.2
  refine ⟨rfl, ?_, ?_, ?_, ?_⟩
  · -- Sub
    have hlen : (filterSub orig bytes_per_pixel).length = orig.length := by
      simp [filterSub]
    unfold unfilter_sub
    rw [hlen]
    simpa using subGo_round orig bytes_per_pixel hbpp horig orig.length 0 (by omega)
  · -- Up
    by_cases hpn : prevList prev = []
    · simp only [unfilter_up, hpn, if_true]
      rw [filterUp_nil horig]
    · have hl : (prevList prev).length = orig.length := by
        rcases hplem with h | h
        · exact absurd h hpn
        · exact h.1
      have hlen : (filterUp orig (prevList prev)).length = orig.length := by
        simp [filterUp]
      simp only [unfilter_up, if_neg hpn, hlen, hl, Nat.lt_irrefl, if_false]
      congr 1
      apply mapRange_eq_self
      intro i hi
      have hscan : (filterUp orig (prevList prev)).getD i 0
          = byteSub (orig.getD i 0) ((prevList prev).getD i 0) := by
        simp only [filterUp]
        exact mapRange_getD _ hi
      rw [hscan]
      exact byteSub_roundtrip (getD_lt_of_all horig i) (getD_lt_of_all hpbytes i)
  · -- Average
    have hlen : (filterAverage orig (prevList prev) bytes_per_pixel).length = orig.length := by
      simp [filterAverage]
    have hguard : ¬(prevList prev ≠ [] ∧ (prevList prev).length
        < (filterAverage orig (prevList prev) bytes_per_pixel).length) := by
      rcases hplem with h | h
      · simp [h]
      · rw [hlen, h.1]
        simp
    simp only [unfilter_average, if_neg hguard]
    congr 1
    rw [hlen]
    simpa using avgGo_round orig (prevList prev) bytes_per_pixel hbpp horig hpbytes
      orig.length 0 (by omega)
  · -- Paeth
    have hlen : (filterPaeth orig (prevList prev) bytes_per_pixel).length = orig.length := by
      simp [filterPaeth]
    have hguard : ¬(prevList prev ≠ [] ∧ (prevList prev).length
        < (filterPaeth orig (prevList prev) bytes_per_pixel).length) := by
      rcases hplem with h | h
      · simp [h]
      · rw [hlen, h.1]
        simp
    simp only [unfilter_paeth, if_neg hguard]
    congr 1
    rw [hlen]
    simpa using paethGo_round orig (prevList prev) bytes_per_pixel hbpp horig hpbytes
      orig.length 0 (by omega)

/-- Witness for C1 at a concrete input: scanline `[1, 250, 3]`, previous
reconstructed scanline `[10, 20, 30]`, one byte per pixel. -/
theorem C1_filter_unfilter_roundtrip_witness :
    filterNone [1, 250, 3] = [1, 250, 3] ∧
    unfilter_sub (filterSub [1, 250, 3] 1) 1 = [1, 250, 3] ∧
    unfilter_up (filterUp [1, 250, 3] (prevList (some [10, 20, 30]))) (some [10, 20, 30])
      = Except.ok [1, 250, 3] ∧
    unfilter_average (filterAverage [1, 250, 3] (prevList (some [10, 20, 30])) 1)
      (some [10, 20, 30]) 1 = Except.ok [1, 250, 3] ∧
    unfilter_paeth (filterPaeth [1, 250, 3] (prevList (some [10, 20, 30])) 1)
      (some [10, 20, 30]) 1 = Except.ok [1, 250, 3] :=
  C1_filter_unfilter_roundtrip [1, 250, 3] 1 (some [10, 20, 30]) (by decide) (by decide)
    (fun q hq => by
      cases hq
      exact ⟨rfl, by decide⟩)

/-! ### Length behaviour of the unfilter helpers -/

theorem subGo_length (scanline : List Nat) (bpp : Nat) :
    ∀ (n : Nat) (res : List Nat), (subGo scanline bpp res n).length = res.length + n := by
  intro n
  induction n with
  | zero => intro res; simp [subGo]
  | succ n ih =>
    intro res
    simp only [subGo]
    rw [ih]
    simp
    omega

theorem unfilter_sub_length (scanline : List Nat) (bpp : Nat) :
    (unfilter_sub scanline bpp).length = scanline.length := by
  unfold unfilter_sub
  rw [subGo_length]
  simp

theorem avgGo_length (scanline p : List Nat) (bpp : Nat) :
    ∀ (n : Nat) (res : List Nat), (avgGo scanline p bpp res n).length = res.length + n := by
  intro n
  induction n with
  | zero => intro res; simp [avgGo]
  | succ n ih =>
    intro res
    simp only [avgGo]
    rw [ih]
    simp
    omega

theorem paethGo_length (scanline p : List Nat) (bpp : Nat) :
    ∀ (n : Nat) (res : List Nat), (paethGo scanline p bpp res n).length = res.length + n := by
  intro n
  induction n with
  | zero => intro res; simp [paethGo]
  | succ n ih =>
    intro res
    simp only [paethGo]
    rw [ih]
    simp
    omega

/-- For a full-length scanline, a well-formed previous row and a filter
byte in 0..4, the per-filter dispatch of `unfilter_scanlines` succeeds
and produces a scanline of exactly `stride` bytes. -/
theorem stepFilter_ok (scanline_data : List Nat) (prev : Option (List Nat))
    (bpp ft stride : Nat) (hs : 1 ≤ stride) (hsl : scanline_data.length = stride)
    (hprev : prev = none ∨ ∃ p, prev = some p ∧ p.length = stride)
    (hft : ft ≤ 4) :
    ∃ rsl, rsl.length = stride ∧
      (if ft = 0 then Except.ok scanline_data
       else if ft = 1 then Except.ok (unfilter_sub scanline_data bpp)
       else if ft = 2 then unfilter_up scanline_data prev
       else if ft = 3 then unfilter_average scanline_data prev bpp
       else if ft = 4 then unfilter_paeth scanline_data prev bpp
       else Except.error (.unknownFilterType ft)) = Except.ok rsl := by
  have hp : prevList prev = [] ∨ (prevList prev).length = stride := by
    rcases hprev with h | ⟨p, hp1, hp2⟩
    · rw [h]; exact Or.inl rfl
    · rw [hp1]; exact Or.inr hp2
  have hguard : ¬(prevList prev ≠ [] ∧ (prevList prev).length < scanline_data.length) := by
    rcases hp with h | h
    · simp [h]
    · rw [h, hsl]
      simp
  have hft5 : ft = 0 ∨ ft = 1 ∨ ft = 2 ∨ ft = 3 ∨ ft = 4 := by omega
  rcases hft5 with h | h | h | h | h <;> subst h
  · exact ⟨scanline_data, hsl, by simp⟩
  · refine ⟨unfilter_sub scanline_data bpp, ?_, by simp⟩
    rw [unfilter_sub_length, hsl]
  · rcases hp with h | h
    · refine ⟨scanline_data, hsl, ?_⟩
      simp [unfilter_up, h]
    · have hpn : prevList prev ≠ [] := by
        intro hx
        rw [hx] at h
        simp at h
        omega
      refine ⟨(List.range scanline_data.length).map
        (fun i => (scanline_data.getD i 0 + (prevList prev).getD i 0) % 256), by simp [hsl], ?_⟩
      simp only [unfilter_up, if_neg hpn, h, hsl, Nat.lt_irrefl, if_false]
      norm_num
  · refine ⟨avgGo scanline_data (prevList prev) bpp [] scanline_data.length, ?_, ?_⟩
    · rw [avgGo_length]
      simp [hsl]
    · simp only [unfilter_average, if_neg hguard]
      norm_num
  · refine ⟨paethGo scanline_data (prevList prev) bpp [] scanline_data.length, ?_, ?_⟩
    · rw [paethGo_length]
      simp [hsl]
    · simp only [unfilter_paeth, if_neg hguard]
      norm_num

/-- Core invariant of the scanline loop: as long as the data holds `k`
complete scanlines whose filter bytes are all in 0..4, the loop runs
through them, advancing the cursor by `1 + stride` per row and appending
exactly `stride` reconstructed bytes per row. -/
theorem unfilterGo_good (data : List Nat) (stride bpp : Nat) (hs : 1 ≤ stride) :
    ∀ (k index : Nat) (recon : List Nat) (rest : Nat),
      (recon = [] ∨ stride ≤ recon.length) →
      index + k * (1 + stride) ≤ data.length →
      (∀ j < k, data.getD (index + j * (1 + stride)) 0 ≤ 4) →
      ∃ out, out.length = k * stride ∧
        unfilterGo data stride bpp index recon (k + rest)
          = unfilterGo data stride bpp (index + k * (1 + stride)) (recon ++ out) rest := by
  intro k
  induction k with
  | zero =>
    intro index recon rest hrec hdata hft
    exact ⟨[], by simp, by simp⟩
  | succ k ih =>
    intro index recon rest hrec hdata hft
    rw [Nat.succ_mul] at hdata
    have hidx : index < data.length := by omega
    have hget : data.get? index = some (data.getD index 0) := by
      rw [List.get?_eq_getElem?, List.getElem?_eq_getElem hidx, List.getD_eq_getElem _ _ hidx]
    have hft0 : data.getD index 0 ≤ 4 := by
      have := hft 0 (by omega)
      simpa using this
    have hsl : ((data.drop (index + 1)).take stride).length = stride := by
      rw [List.length_take, List.length_drop]
      omega
    have hprevOk : (if recon = [] then (none : Option (List Nat))
          else some (lastSlice recon stride)) = none
        ∨ ∃ p, (if recon = [] then (none : Option (List Nat))
          else some (lastSlice recon stride)) = some p ∧ p.length = stride := by
      by_cases hr : recon = []
      · exact Or.inl (by simp [hr])
      · refine Or.inr ⟨lastSlice recon stride, by simp [hr], ?_⟩
        have hrl : stride ≤ recon.length := by
          rcases hrec with h | h
          · exact absurd h hr
          · exact h
        unfold lastSlice
        rw [if_neg (by omega), List.length_drop]
        omega
    obtain ⟨rsl, hrsl, hstep⟩ := stepFilter_ok ((data.drop (index + 1)).take stride)
      (if recon = [] then none else some (lastSlice recon stride)) bpp (data.getD index 0)
      stride hs hsl hprevOk hft0
    obtain ⟨out, hout, heq⟩ := ih (index + 1 + stride) (recon ++ rsl) rest
      (Or.inr (by rw [List.length_append, hrsl]; omega))
      (by omega)
      (by
        intro j hj
        have h2 := hft (j + 1) (by omega)
        rw [Nat.succ_mul] at h2
        have harr : index + 1 + stride + j * (1 + stride)
            = index + (j * (1 + stride) + (1 + stride)) := by omega
        rw [harr]
        exact h2)
    refine ⟨rsl ++ out, ?_, ?_⟩
    · rw [List.length_append, hrsl, hout, Nat.succ_mul]
      omega
    · rw [show k + 1 + rest = (k + rest) + 1 from by omega]
      simp only [unfilterGo, hget]
      rw [hstep]
      show unfilterGo data stride bpp (index + 1 + stride) (recon ++ rsl) (k + rest) = _
      rw [heq]
      have harith : index + 1 + stride + k * (1 + stride)
          = index + (k + 1) * (1 + stride) := by
        rw [Nat.succ_mul]
        omega
      rw [harith, List.append_assoc]

/-- The scanline loop never reads past the `h * (1 + stride)` bytes it
needs: running it on the truncation of the buffer to any `N` covering
those bytes gives the same result. -/
theorem unfilterGo_take (data : List Nat) (stride bpp N : Nat) :
    ∀ (h index : Nat) (recon : List Nat),
      index + h * (1 + stride) ≤ N →
      unfilterGo (data.take N) stride bpp index recon h
        = unfilterGo data stride bpp index recon h := by
  intro h
  induction h with
  | zero => intro index recon hN; rfl
  | succ h ih =>
    intro index recon hN
    rw [Nat.succ_mul] at hN
    have hget : (data.take N).get? index = data.get? index := by
      rw [List.get?_eq_getElem?, List.get?_eq_getElem?, List.getElem?_take]
      rw [if_pos (by omega)]
    have hslice : ((data.take N).drop (index + 1)).take stride
        = (data.drop (index + 1)).take stride := by
      rw [List.drop_take, List.take_take]
      congr 1
      omega
    cases hcase : data.get? index with
    | none =>
      have hgetN : (data.take N).get? index = none := by rw [hget, hcase]
      simp only [unfilterGo, hcase, hgetN]
    | some ft =>
      have hgetN : (data.take N).get? index = some ft := by rw [hget, hcase]
      simp only [unfilterGo, hcase, hgetN, hslice]
      split
      · rfl
      · exact ih (index + 1 + stride) _ (by omega)

/-- Claim C2: for positive geometry and a decompressed buffer holding at
least `height * (1 + stride)` bytes whose scanline filter bytes are all
in 0..4, `unfilter_scanlines` succeeds, reads exactly the first
`height * (1 + stride)` bytes (truncating the buffer there gives the same
result) and returns exactly `height * stride` output bytes. -/
theorem C2_unfilter_length (data : List Nat) (width bytes_per_pixel height : Nat)
    (hw : 0 < width) (hb : 0 < bytes_per_pixel) (hh : 0 < height)
    (hlen : height * (1 + width * bytes_per_pixel) ≤ data.length)
    (hft : ∀ k < height, data.getD (k * (1 + width * bytes_per_pixel)) 0 ≤ 4) :
    ∃ out, unfilter_scanlines data width bytes_per_pixel height = Except.ok out ∧
      out.length = height * (width * bytes_per_pixel) ∧
      unfilter_scanlines (data.take (height * (1 + width * bytes_per_pixel)))
        width bytes_per_pixel height = Except.ok out := by
  have hs : 1 ≤ width * bytes_per_pixel := Nat.mul_pos hw hb
  obtain ⟨out, hout, heq⟩ := unfilterGo_good data (width * bytes_per_pixel)
    bytes_per_pixel hs height 0 [] 0 (Or.inl rfl) (by omega)
    (by intro j hj; simpa using hft j hj)
  simp only [Nat.add_zero, Nat.zero_add, List.nil_append] at heq
  have hmain : unfilterGo data (width * bytes_per_pixel) bytes_per_pixel 0 [] height
      = Except.ok out := by
    rw [heq]
    rfl
  refine ⟨out, hmain, hout, ?_⟩
  unfold unfilter_scanlines
  rw [unfilterGo_take data (width * bytes_per_pixel) bytes_per_pixel
    (height * (1 + width * bytes_per_pixel)) height 0 [] (by omega)]
  exact hmain

/-- Witness for C2: the two-row grayscale buffer `[0,10,20, 0,30,40]`
with width 2, one byte per pixel. -/
theorem C2_unfilter_length_witness :
    ∃ out, unfilter_scanlines [0, 10, 20, 0, 30, 40] 2 1 2 = Except.ok out ∧
      out.length = 2 * (2 * 1) ∧
      unfilter_scanlines (List.take (2 * (1 + 2 * 1)) [0, 10, 20, 0, 30, 40]) 2 1 2
        = Except.ok out :=
  C2_unfilter_length [0, 10, 20, 0, 30, 40] 2 1 2 (by decide) (by decide) (by decide)
    (by decide) (by decide)

/-- Claim C4: a filter byte above 4 at scanline `k` (all earlier rows
well formed and in bounds) makes `unfilter_scanlines` fail with
`UnknownFilterType` carrying that byte; no reconstructed bytes are
returned, the result being an error value only. -/
theorem C4_unknown_filter_aborts (data : List Nat) (width bytes_per_pixel height k : Nat)
    (hw : 0 < width) (hb : 0 < bytes_per_pixel) (hk : k < height)
    (hpos : k * (1 + width * bytes_per_pixel) < data.length)
    (hbad : 4 < data.getD (k * (1 + width * bytes_per_pixel)) 0)
    (hprev : ∀ j < k, data.getD (j * (1 + width * bytes_per_pixel)) 0 ≤ 4) :
    unfilter_scanlines data width bytes_per_pixel height
      = Except.error
          (FilterError.unknownFilterType
            (data.getD (k * (1 + width * bytes_per_pixel)) 0)) := by
  have hs : 1 ≤ width * bytes_per_pixel := Nat.mul_pos hw hb
  obtain ⟨out, hout, heq⟩ := unfilterGo_good data (width * bytes_per_pixel)
    bytes_per_pixel hs k 0 [] (height - k) (Or.inl rfl) (by omega)
    (by intro j hj; simpa using hprev j hj)
  simp only [Nat.add_zero, Nat.zero_add, List.nil_append] at heq
  unfold unfilter_scanlines
  rw [show height = k + (height - k) from by omega, heq]
  rw [show height - k = (height - k - 1) + 1 from by omega]
  have hget : data.get? (k * (1 + width * bytes_per_pixel))
      = some (data.getD (k * (1 + width * bytes_per_pixel)) 0) := by
    rw [List.get?_eq_getElem?, List.getElem?_eq_getElem hpos,
      List.getD_eq_getElem _ _ hpos]
  simp only [unfilterGo, hget]
  rw [if_neg (by omega), if_neg (by omega), if_neg (by omega), if_neg (by omega),
    if_neg (by omega)]

/-- Witness for C4: buffer `[0,10,20, 9,30,40]`; the second scanline's
filter byte is 9. -/
theorem C4_unknown_filter_aborts_witness :
    unfilter_scanlines [0, 10, 20, 9, 30, 40] 2 1 2
      = Except.error (FilterError.unknownFilterType 9) := by
  have h := C4_unknown_filter_aborts [0, 10, 20, 9, 30, 40] 2 1 2 1 (by decide)
    (by decide) (by decide) (by decide) (by decide) (by decide)
  simpa using h

/-- Counterexample to C3 as stated: on `[0x00, 10]` with stride 2 only
one data byte remains for the scanline, yet `unfilter_scanlines` raises
no `TruncatedScanline` error and returns the partial image `[10]`. -/
theorem C3_counterexample : unfilter_scanlines [0, 10] 2 1 1 = Except.ok [10] := rfl

/-- Claim C3 (amended): `unfilter_scanlines` has no `TruncatedScanline`
error.  When a scanline's filter byte is present (here filter type 0) but
fewer than `stride` data bytes remain, the data bytes are silently
truncated and the partial reconstructed image is returned as a success;
only when the filter byte itself lies past the end of the buffer does the
call fail, and then with a plain `IndexError`. -/
theorem C3_truncation_behaviour :
    (∀ (width bytes_per_pixel : Nat) (tail : List Nat),
        tail.length < width * bytes_per_pixel →
        unfilter_scanlines (0 :: tail) width bytes_per_pixel 1 = Except.ok tail) ∧
    (∀ (width bytes_per_pixel height : Nat), 0 < height →
        unfilter_scanlines [] width bytes_per_pixel height
          = Except.error FilterError.indexError) := by
  constructor
  · intro w b tail htail
    show Except.ok (([] : List Nat) ++ tail.take (w * b)) = Except.ok tail
    rw [List.take_of_length_le (Nat.le_of_lt htail)]
    rfl
  · intro w b h hh
    rw [show h = (h - 1) + 1 from by omega]
    rfl

/-- Witness for C3 (amended): a one-row image with stride 3 and
two remaining data bytes; and the empty buffer with three rows. -/
theorem C3_truncation_behaviour_witness :
    unfilter_scanlines [0, 7, 8] 3 1 1 = Except.ok [7, 8] ∧
    unfilter_scanlines [] 2 1 3 = Except.error FilterError.indexError :=
  ⟨C3_truncation_behaviour.1 3 1 [7, 8] (by decide),
   C3_truncation_behaviour.2 2 1 3 (by decide)⟩

/-- Counterexample to C6 as stated: the spec's 5-byte stream
`[0x00, 10, 20, 30, 40]` holds a filter byte only for the first row; the
second row reads the pixel byte 30 as its filter type, so the call fails
with `UnknownFilterType 30` instead of returning `[10, 20, 30, 40]`. -/
theorem C6_counterexample :
    unfilter_scanlines [0, 10, 20, 30, 40] 2 1 2
      = Except.error (FilterError.unknownFilterType 30) ∧
    unfilter_scanlines [0, 10, 20, 30, 40] 2 1 2 ≠ Except.ok [10, 20, 30, 40] := by
  have e1 : unfilter_scanlines [0, 10, 20, 30, 40] 2 1 2
      = Except.error (FilterError.unknownFilterType 30) := rfl
  refine ⟨e1, ?_⟩
  intro h
  rw [e1] at h
  exact Except.noConfusion h

/-- Claim C6 (amended): with a filter-type byte 0 before each of the two
rows, the decompressed stream `[0, 10, 20, 0, 30, 40]` of a 2x2
grayscale, 8-bit-depth image unfilters to `[10, 20, 30, 40]`
unchanged. -/
theorem C6_two_by_two_unfiltered :
    unfilter_scanlines [0, 10, 20, 0, 30, 40] 2 1 2 = Except.ok [10, 20, 30, 40] := rfl

set_option maxRecDepth 8000 in
/-- Claim C7: under the zlib-style defaults, `calculate_crc32_reversed`
maps the empty sequence to `0x00000000` and the bytes of "123456789"
to the standard check value `0xCBF43926`. -/
theorem C7_crc32_reversed_vectors :
    calculate_crc32_reversed [] = 0 ∧
    calculate_crc32_reversed [49, 50, 51, 52, 53, 54, 55, 56, 57] = 0xCBF43926 := by
  constructor
  · rfl
  · decide

/-! ### 32-bit register lemmas -/

theorem land_mask_eq_mod (x : Nat) : x &&& 0xFFFFFFFF = x % 4294967296 := by
  have h2 : (0xFFFFFFFF : Nat) = 2 ^ 32 - 1 := by norm_num
  have h3 : (4294967296 : Nat) = 2 ^ 32 := by norm_num
  rw [h2, h3, Nat.and_pow_two_sub_one_eq_mod]

theorem land_mask_of_lt {x : Nat} (h : x < 4294967296) : x &&& 0xFFFFFFFF = x := by
  rw [land_mask_eq_mod]
  omega

theorem xor_mod_M (a b : Nat) :
    (a ^^^ b) % 4294967296 = (a % 4294967296) ^^^ (b % 4294967296) := by
  have h3 : (4294967296 : Nat) = 2 ^ 32 := by norm_num
  rw [h3]
  apply Nat.eq_of_testBit_eq
  intro i
  rw [Nat.testBit_mod_two_pow, Nat.testBit_xor, Nat.testBit_xor,
    Nat.testBit_mod_two_pow, Nat.testBit_mod_two_pow]
  by_cases h : i < 32 <;> simp [h]

theorem xor_lt_M {a b : Nat} (ha : a < 4294967296) (hb : b < 4294967296) :
    a ^^^ b < 4294967296 := by
  have h3 : (4294967296 : Nat) = 2 ^ 32 := by norm_num
  rw [h3] at ha hb ⊢
  exact Nat.xor_lt_two_pow ha hb

theorem and_top_bit_mod (x : Nat) :
    (x % 4294967296) &&& 0x80000000 = x &&& 0x80000000 := by
  have h3 : (4294967296 : Nat) = 2 ^ 32 := by norm_num
  rw [h3]
  apply Nat.eq_of_testBit_eq
  intro i
  rw [Nat.testBit_and, Nat.testBit_and, Nat.testBit_mod_two_pow]
  by_cases hi : i < 32
  · simp [hi]
  · have hbit : (0x80000000 : Nat).testBit i = false := by
      apply Nat.testBit_lt_two_pow
      have h31 : (0x80000000 : Nat) = 2 ^ 31 := by norm_num
      rw [h31]
      exact Nat.pow_lt_pow_right (by norm_num) (by omega)
    simp [hi, hbit]

/-! ### The reflected mode never leaves 32 bits -/

theorem revRound_lt {p c : Nat} (hp : p < 4294967296) (hc : c < 4294967296) :
    revRound p c < 4294967296 := by
  unfold revRound
  have h1 : c >>> 1 < 4294967296 := by
    rw [Nat.shiftRight_eq_div_pow]
    omega
  split
  · exact xor_lt_M h1 hp
  · exact h1

theorem revRoundMasked_eq {p c : Nat} (hp : p < 4294967296) (hc : c < 4294967296) :
    revRoundMasked p c = revRound p c := by
  unfold revRoundMasked revRound
  have h1 : c >>> 1 < 4294967296 := by
    rw [Nat.shiftRight_eq_div_pow]
    omega
  rw [land_mask_of_lt h1]
  split
  · exact land_mask_of_lt (xor_lt_M h1 hp)
  · rfl

theorem iterN_rev_eq (p : Nat) (hp : p < 4294967296) :
    ∀ n x, x < 4294967296 →
      iterN (revRoundMasked p) n x = iterN (revRound p) n x
      ∧ iterN (revRound p) n x < 4294967296 := by
  intro n
  induction n with
  | zero => intro x hx; exact ⟨rfl, hx⟩
  | succ n ih =>
    intro x hx
    simp only [iterN, revRoundMasked_eq hp hx]
    exact ih (revRound p x) (revRound_lt hp hx)

/-! ### The forward mode agrees with the masked reference modulo 2^32 -/

theorem stdRound_rel {p : Nat} (hp : p < 4294967296) {x y : Nat}
    (hxy : x % 4294967296 = y) :
    (stdRound p x) % 4294967296 = stdRoundMasked p y := by
  have hbit : y &&& 0x80000000 = x &&& 0x80000000 := by
    rw [← hxy, and_top_bit_mod]
  unfold stdRound stdRoundMasked
  rw [hbit]
  simp only [land_mask_eq_mod]
  rw [Nat.shiftLeft_eq x 1, Nat.shiftLeft_eq y 1]
  split
  · rw [xor_mod_M, xor_mod_M]
    congr 1
    have h1 : (2 : Nat) ^ 1 = 2 := by norm_num
    rw [h1]
    omega
  · have h1 : (2 : Nat) ^ 1 = 2 := by norm_num
    rw [h1]
    omega

theorem iterN_std_rel (p : Nat) (hp : p < 4294967296) :
    ∀ n x y, x % 4294967296 = y →
      (iterN (stdRound p) n x) % 4294967296 = iterN (stdRoundMasked p) n y := by
  intro n
  induction n with
  | zero => intro x y h; exact h
  | succ n ih =>
    intro x y h
    simp only [iterN]
    exact ih _ _ (stdRound_rel hp h)

/-! ### Whole-input fold lemmas -/

theorem crcRev_fold (p : Nat) (hp : p < 4294967296) :
    ∀ (data : List Nat), (∀ b ∈ data, b < 256) → ∀ c, c < 4294967296 →
      data.foldl (fun crc byte => iterN (revRoundMasked p) 8 ((crc ^^^ byte) &&& 0xFFFFFFFF)) c
        = data.foldl (fun crc byte => iterN (revRound p) 8 (crc ^^^ byte)) c
      ∧ data.foldl (fun crc byte => iterN (revRound p) 8 (crc ^^^ byte)) c < 4294967296 := by
  intro data
  induction data with
  | nil =>
    intro _ c hc
    rw [List.foldl_nil, List.foldl_nil]
    exact ⟨rfl, hc⟩
  | cons b tl ih =>
    intro hdata c hc
    have hb : b < 4294967296 := by
      have := hdata b (by simp)
      omega
    have hxb : c ^^^ b < 4294967296 := xor_lt_M hc hb
    have hmask : (c ^^^ b) &&& 0xFFFFFFFF = c ^^^ b := land_mask_of_lt hxb
    simp only [List.foldl_cons, hmask]
    obtain ⟨hit, _⟩ := iterN_rev_eq p hp 8 (c ^^^ b) hxb
    rw [hit]
    exact ih (fun x hx => hdata x (by simp [hx])) (iterN (revRound p) 8 (c ^^^ b))
      (iterN_rev_eq p hp 8 (c ^^^ b) hxb).2

theorem crcStd_fold (p : Nat) (hp : p < 4294967296) :
    ∀ (data : List Nat) (c : Nat), c < 4294967296 →
      data.foldl
          (fun crc byte => (iterN (stdRound p) 8 (crc ^^^ (byte <<< 24))) &&& 0xFFFFFFFF) c
        = data.foldl
          (fun crc byte => iterN (stdRoundMasked p) 8 ((crc ^^^ (byte <<< 24)) &&& 0xFFFFFFFF)) c
      ∧ data.foldl
          (fun crc byte => (iterN (stdRound p) 8 (crc ^^^ (byte <<< 24))) &&& 0xFFFFFFFF) c
          < 4294967296 := by
  intro data
  induction data with
  | nil =>
    intro c hc
    rw [List.foldl_nil, List.foldl_nil]
    exact ⟨rfl, hc⟩
  | cons b tl ih =>
    intro c hc
    have hstep : (iterN (stdRound p) 8 (c ^^^ (b <<< 24))) &&& 0xFFFFFFFF
        = iterN (stdRoundMasked p) 8 ((c ^^^ (b <<< 24)) &&& 0xFFFFFFFF) := by
      rw [land_mask_eq_mod, land_mask_eq_mod]
      exact iterN_std_rel p hp 8 _ _ rfl
    have hlt : (iterN (stdRound p) 8 (c ^^^ (b <<< 24))) &&& 0xFFFFFFFF < 4294967296 := by
      rw [land_mask_eq_mod]
      omega
    simp only [List.foldl_cons]
    rw [← hstep]
    exact ih _ hlt

/-- Claim C8: for byte input, a 32-bit polynomial and a 32-bit initial
value, both CRC modes keep the register within 32 bits: each returns a
value below `2^32` equal to the reference computation that masks the
register after every shift and xor. -/
theorem C8_crc32_bounded_and_masked (data : List Nat) (polynomial initial_value : Nat)
    (hpoly : polynomial < 4294967296) (hinit : initial_value < 4294967296)
    (hdata : ∀ b ∈ data, b < 256) :
    calculate_crc32_standard data polynomial initial_value < 4294967296 ∧
    calculate_crc32_standard data polynomial initial_value
      = crc32StdMasked data polynomial initial_value ∧
    calculate_crc32_reversed data polynomial initial_value < 4294967296 ∧
    calculate_crc32_reversed data polynomial initial_value
      = crc32RevMasked data polynomial initial_value := by
  obtain ⟨hseq, hslt⟩ := crcStd_fold polynomial hpoly data initial_value hinit
  obtain ⟨hreq, hrlt⟩ := crcRev_fold polynomial hpoly data hdata initial_value hinit
  unfold calculate_crc32_standard crc32StdMasked calculate_crc32_reversed crc32RevMasked
  rw [land_mask_of_lt hinit, ← hseq, hreq]
  refine ⟨xor_lt_M hslt hinit, ?_, xor_lt_M hrlt hinit, ?_⟩
  · rw [land_mask_of_lt (xor_lt_M hslt hinit)]
  · rw [land_mask_of_lt (xor_lt_M hrlt hinit)]

/-- Witness for C8 at the byte sequence `[49]`, the zlib polynomial and
the standard initial value. -/
theorem C8_crc32_bounded_and_masked_witness :
    calculate_crc32_standard [49] 0xEDB88320 0xFFFFFFFF < 4294967296 ∧
    calculate_crc32_standard [49] 0xEDB88320 0xFFFFFFFF
      = crc32StdMasked [49] 0xEDB88320 0xFFFFFFFF ∧
    calculate_crc32_reversed [49] 0xEDB88320 0xFFFFFFFF < 4294967296 ∧
    calculate_crc32_reversed [49] 0xEDB88320 0xFFFFFFFF
      = crc32RevMasked [49] 0xEDB88320 0xFFFFFFFF :=
  C8_crc32_bounded_and_masked [49] 0xEDB88320 0xFFFFFFFF (by norm_num) (by norm_num)
    (by intro b hb; simp at hb; omega)

/-- Claim C9: when the scan hits a structural error at the current
cursor — the located `IDAT` tag has no 4-byte length field before it, or
the declared payload plus 4 checksum bytes run past the end of the
buffer — scanning stops and returns exactly the `(payload, checksum)`
records accumulated so far, discarding none of them. -/
theorem C9_partial_records_preserved (data : List Nat) (include_magic : Bool)
    (idx : Nat) (acc : List (List Nat × List Nat)) (j : Nat)
    (hfind : findMarker data idx = some j)
    (herr : j < 4 ∨ data.length < j + 4 + be32At data (j - 4) + 4) :
    findIdatAux data include_magic idx acc = acc := by
  by_cases h4 : j < 4
  · rw [findIdatAux, hfind]
    simp only [if_pos h4]
  · have h : data.length < j + 4 + be32At data (j - 4) + 4 := by
      rcases herr with h | h
      · exact absurd h h4
      · exact h
    rw [findIdatAux, hfind]
    simp only [if_neg h4, if_pos h]

/-- Witness for C9: a buffer with one complete IDAT chunk already
collected and a second, truncated IDAT chunk at the cursor. -/
theorem C9_partial_records_preserved_witness :
    findIdatAux [137, 80, 78, 71, 13, 10, 26, 10,
        0, 0, 0, 1, 73, 68, 65, 84, 171, 1, 2, 3, 4,
        0, 0, 0, 9, 73, 68, 65, 84, 5, 6] false 21 [([171], [1, 2, 3, 4])]
      = [([171], [1, 2, 3, 4])] :=
  C9_partial_records_preserved _ false 21 [([171], [1, 2, 3, 4])] 25
    (by decide) (Or.inr (by decide))

/-- Claim C10: whenever the scan loop recurses, the cursor strictly
advances by at least 8 bytes (past the tag, the declared payload and the
checksum) and stays bounded by the buffer length, so `find_idat_chunks`
terminates on every input: the recursion is well founded on the bytes
remaining after the cursor. -/
theorem C10_scan_cursor_advances (data : List Nat) (include_magic : Bool)
    (idx : Nat) (acc : List (List Nat × List Nat)) (j : Nat)
    (hfind : findMarker data idx = some j) (h4 : ¬j < 4)
    (hfit : ¬data.length < j + 4 + be32At data (j - 4) + 4) :
    idx + 8 ≤ j + 4 + be32At data (j - 4) + 4
    ∧ j + 4 + be32At data (j - 4) + 4 ≤ data.length
    ∧ findIdatAux data include_magic idx acc
        = findIdatAux data include_magic (j + 4 + be32At data (j - 4) + 4)
            (acc ++ [chunkAt data include_magic j (be32At data (j - 4))]) := by
  have hb := findMarker_bounds hfind
  refine ⟨by omega, by omega, ?_⟩
  rw [findIdatAux, hfind]
  simp only [if_neg h4, if_neg hfit]

/-- Witness for C10: the first IDAT chunk of the buffer used for the C9
witness; the cursor advances from 8 to 21 = 12 + 4 + 1 + 4. -/
theorem C10_scan_cursor_advances_witness :
    8 + 8 ≤ 12 + 4 + be32At [137, 80, 78, 71, 13, 10, 26, 10,
        0, 0, 0, 1, 73, 68, 65, 84, 171, 1, 2, 3, 4,
        0, 0, 0, 9, 73, 68, 65, 84, 5, 6] (12 - 4) + 4
    ∧ 12 + 4 + be32At [137, 80, 78, 71, 13, 10, 26, 10,
        0, 0, 0, 1, 73, 68, 65, 84, 171, 1, 2, 3, 4,
        0, 0, 0, 9, 73, 68, 65, 84, 5, 6] (12 - 4) + 4
        ≤ (List.length [137, 80, 78, 71, 13, 10, 26, 10,
        0, 0, 0, 1, 73, 68, 65, 84, 171, 1, 2, 3, 4,
        0, 0, 0, 9, 73, 68, 65, 84, 5, 6])
    ∧ findIdatAux [137, 80, 78, 71, 13, 10, 26, 10,
        0, 0, 0, 1, 73, 68, 65, 84, 171, 1, 2, 3, 4,
        0, 0, 0, 9, 73, 68, 65, 84, 5, 6] false 8 []
        = findIdatAux [137, 80, 78, 71, 13, 10, 26, 10,
        0, 0, 0, 1, 73, 68, 65, 84, 171, 1, 2, 3, 4,
        0, 0, 0, 9, 73, 68, 65, 84, 5, 6] false
          (12 + 4 + be32At [137, 80, 78, 71, 13, 10, 26, 10,
            0, 0, 0, 1, 73, 68, 65, 84, 171, 1, 2, 3, 4,
            0, 0, 0, 9, 73, 68, 65, 84, 5, 6] (12 - 4) + 4)
          ([] ++ [chunkAt [137, 80, 78, 71, 13, 10, 26, 10,
            0, 0, 0, 1, 73, 68, 65, 84, 171, 1, 2, 3, 4,
            0, 0, 0, 9, 73, 68, 65, 84, 5, 6] false 12
            (be32At [137, 80, 78, 71, 13, 10, 26, 10,
              0, 0, 0, 1, 73, 68, 65, 84, 171, 1, 2, 3, 4,
              0, 0, 0, 9, 73, 68, 65, 84, 5, 6] (12 - 4))]) :=
  C10_scan_cursor_advances _ false 8 [] 12 (by decide) (by decide) (by decide)

/-- A successful `bytesPerPixel` derivation is positive exactly for
indexed color (type 3) or a bit depth of at least 8; the floor division
`bit_depth // 8` gives 0 for bit depths 1, 2 and 4 otherwise. -/
theorem bytesPerPixel_pos_iff (bd ct bpp : Nat)
    (heq : bytesPerPixel bd ct = some bpp) : 0 < bpp ↔ ct = 3 ∨ 8 ≤ bd := by
  unfold bytesPerPixel at heq
  split_ifs at heq with h0 h2 h3 h4 h6 <;>
    first
      | (simp only [Option.some.injEq] at heq; omega)
      | cases heq

/-- A successful run of the IHDR chunk loop locates an actual `IHDR`
chunk in the buffer: the returned width and height are the big-endian
fields of that chunk and the returned bytes-per-pixel value is the
per-color-type derivation applied to that chunk's own bit-depth and
color-type bytes. -/
theorem ihdrLoop_ihdr (data : List Nat) :
    ∀ (n pos w h bpp : Nat), data.length - pos ≤ n →
      ihdrLoop data pos = some (w, h, bpp) →
      ∃ q, readBytes data (q + 4) 4 = [73, 72, 68, 82] ∧
        10 ≤ (readBytes data (q + 8) 13).length ∧
        w = beVal ((readBytes data (q + 8) 13).take 4) ∧
        h = beVal (((readBytes data (q + 8) 13).drop 4).take 4) ∧
        bytesPerPixel ((readBytes data (q + 8) 13).getD 8 0)
          ((readBytes data (q + 8) 13).getD 9 0) = some bpp := by
  intro n
  induction n with
  | zero =>
    intro pos w h bpp hn heq
    have h4 : (readBytes data pos 4).length < 4 := by
      simp only [readBytes, List.length_take, List.length_drop]
      omega
    rw [ihdrLoop] at heq
    rw [dif_pos (Or.inl h4)] at heq
    cases heq
  | succ n ih =>
    intro pos w h bpp hn heq
    rw [ihdrLoop] at heq
    by_cases h4 : (readBytes data pos 4).length < 4 ∨ (readBytes data (pos + 4) 4).length < 4
    · rw [dif_pos h4] at heq
      cases heq
    · rw [dif_neg h4] at heq
      simp only [] at heq
      by_cases htyp : readBytes data (pos + 4) 4 = [73, 72, 68, 82]
      · rw [if_pos htyp] at heq
        by_cases hihdr : (readBytes data (pos + 8) 13).length < 10
        · rw [if_pos hihdr] at heq
          cases heq
        · rw [if_neg hihdr] at heq
          rcases Option.map_eq_some'.1 heq with ⟨v, hv, hpair⟩
          cases hpair
          exact ⟨pos, htyp, by omega, rfl, rfl, hv⟩
      · rw [if_neg htyp] at heq
        refine ih _ _ _ _ ?_ heq
        have hlen : 4 ≤ (readBytes data pos 4).length
            ∧ 4 ≤ (readBytes data (pos + 4) 4).length := by
          rcases not_or.1 h4 with ⟨ha, hb⟩
          omega
        have hpos8 : pos + 8 ≤ data.length := by
          rcases hlen with ⟨ha, hb⟩
          simp only [readBytes, List.length_take, List.length_drop] at ha hb
          omega
        omega

/-- Counterexample to C5 as stated: a structurally valid PNG whose IHDR
declares width 0, height 0, bit depth 4 and color type 0 (grayscale).
`get_png_ihdr_info` succeeds and returns width 0, height 0 and
bytes_per_pixel `4 // 8 = 0`, violating all three positivity claims. -/
theorem C5_counterexample :
    get_png_ihdr_info [137, 80, 78, 71, 13, 10, 26, 10,
      0, 0, 0, 13, 73, 72, 68, 82,
      0, 0, 0, 0, 0, 0, 0, 0, 4, 0, 0, 0, 0] = some (0, 0, 0) := by
  simp [get_png_ihdr_info, ihdrLoop, readBytes, beVal, bytesPerPixel, pngSignature]

/-- Claim C5 (amended): on every successful return of `get_png_ihdr_info`
the triple comes from an `IHDR` chunk actually present in the buffer:
the returned width and height are that chunk's big-endian fields, the
returned bytes_per_pixel is the per-color-type derivation applied to
that chunk's own bit-depth and color-type bytes, and it is positive
exactly when that color type is 3 (indexed) or that bit depth is at
least 8 — so bit depths 1, 2 and 4 with the other supported color types
give a successful return carrying bytes_per_pixel 0 — while neither
width nor height is validated for positivity. -/
theorem C5_geometry_from_ihdr (data : List Nat) (w h bpp : Nat)
    (hsucc : get_png_ihdr_info data = some (w, h, bpp)) :
    ∃ q, readBytes data (q + 4) 4 = [73, 72, 68, 82] ∧
      10 ≤ (readBytes data (q + 8) 13).length ∧
      w = beVal ((readBytes data (q + 8) 13).take 4) ∧
      h = beVal (((readBytes data (q + 8) 13).drop 4).take 4) ∧
      bytesPerPixel ((readBytes data (q + 8) 13).getD 8 0)
        ((readBytes data (q + 8) 13).getD 9 0) = some bpp ∧
      (0 < bpp ↔ ((readBytes data (q + 8) 13).getD 9 0 = 3
        ∨ 8 ≤ (readBytes data (q + 8) 13).getD 8 0)) := by
  unfold get_png_ihdr_info at hsucc
  by_cases hsig : readBytes data 0 8 ≠ pngSignature
  · rw [if_pos hsig] at hsucc
    cases hsucc
  · rw [if_neg hsig] at hsucc
    obtain ⟨q, h1, h2, h3, h4, h5⟩ :=
      ihdrLoop_ihdr data (data.length - 8) 8 w h bpp (by omega) hsucc
    exact ⟨q, h1, h2, h3, h4, h5, bytesPerPixel_pos_iff _ _ _ h5⟩

/-- Witness for C5 (amended): a 1x1 grayscale 8-bit PNG; the located
IHDR chunk sits at offset 8, its bit depth is 8 and its color type 0,
and the extractor returns width 1, height 1, bytes-per-pixel 1. -/
theorem C5_geometry_from_ihdr_witness :
    ∃ q, readBytes [137, 80, 78, 71, 13, 10, 26, 10,
        0, 0, 0, 13, 73, 72, 68, 82,
        0, 0, 0, 1, 0, 0, 0, 1, 8, 0, 0, 0, 0] (q + 4) 4 = [73, 72, 68, 82] ∧
      10 ≤ (readBytes [137, 80, 78, 71, 13, 10, 26, 10,
        0, 0, 0, 13, 73, 72, 68, 82,
        0, 0, 0, 1, 0, 0, 0, 1, 8, 0, 0, 0, 0] (q + 8) 13).length ∧
      1 = beVal ((readBytes [137, 80, 78, 71, 13, 10, 26, 10,
        0, 0, 0, 13, 73, 72, 68, 82,
        0, 0, 0, 1, 0, 0, 0, 1, 8, 0, 0, 0, 0] (q + 8) 13).take 4) ∧
      1 = beVal (((readBytes [137, 80, 78, 71, 13, 10, 26, 10,
        0, 0, 0, 13, 73, 72, 68, 82,
        0, 0, 0, 1, 0, 0, 0, 1, 8, 0, 0, 0, 0] (q + 8) 13).drop 4).take 4) ∧
      bytesPerPixel ((readBytes [137, 80, 78, 71, 13, 10, 26, 10,
          0, 0, 0, 13, 73, 72, 68, 82,
          0, 0, 0, 1, 0, 0, 0, 1, 8, 0, 0, 0, 0] (q + 8) 13).getD 8 0)
        ((readBytes [137, 80, 78, 71, 13, 10, 26, 10,
          0, 0, 0, 13, 73, 72, 68, 82,
          0, 0, 0, 1, 0, 0, 0, 1, 8, 0, 0, 0, 0] (q + 8) 13).getD 9 0) = some 1 ∧
      (0 < 1 ↔ ((readBytes [137, 80, 78, 71, 13, 10, 26, 10,
          0, 0, 0, 13, 73, 72, 68, 82,
          0, 0, 0, 1, 0, 0, 0, 1, 8, 0, 0, 0, 0] (q + 8) 13).getD 9 0 = 3
        ∨ 8 ≤ (readBytes [137, 80, 78, 71, 13, 10, 26, 10,
          0, 0, 0, 13, 73, 72, 68, 82,
          0, 0, 0, 1, 0, 0, 0, 1, 8, 0, 0, 0, 0] (q + 8) 13).getD 8 0)) :=
  C5_geometry_from_ihdr [137, 80, 78, 71, 13, 10, 26, 10,
      0, 0, 0, 13, 73, 72, 68, 82,
      0, 0, 0, 1, 0, 0, 0, 1, 8, 0, 0, 0, 0] 1 1 1
    (by simp [get_png_ihdr_info, ihdrLoop, readBytes, beVal, bytesPerPixel, pngSignature])
